import Mathlib

/-!
Verification development for the google-job-scraper backend
(`src/backend/server.js`).

The file shallowly embeds the parts of `server.js` that the claims are
about:

* the ATS keyword-extraction pipeline `extractKeywords` (lines 155-190),
  including the `natural.WordTokenizer` tokenization (split on
  non-`[A-Za-z0-9_]` characters; the library pattern also keeps Cyrillic
  letters, which none of the claims involve), JS `toLowerCase` on ASCII,
  and the frequency-count object built by `reduce` with its ECMA-262
  semantics: `Object.entries` lists canonical array-index own keys first,
  ascending, then the remaining own keys in insertion order
  (OrdinaryOwnPropertyKeys); a `__proto__` token never creates an own key
  because the assignment hits the inherited accessor; a `constructor`
  token first reads the inherited constructor function, so its count is
  corrupted to a non-numeric string whose comparisons are NaN ties; the
  `sort` by descending count is ES2019-stable; then the `Set`-based dedup
  plus `slice(0, 10)`;
* the `/scrape-jobs` GET handler's cache key, cache lookup, keyword
  validation and store (lines 37-79);
* the in-memory `Map` cache with `setTimeout`-scheduled deletion
  (lines 70-72), as a timed event semantics;
* the job mapper of the `app.all` handler (lines 118-137): apply-link
  resolution over `related_links`, the Google-search fallback URL with
  `encodeURIComponent`, and the drop of postings without a description.

Pure JS strings are modelled as Lean `String` (a list of characters);
absent values (`undefined`) as `Option`; JS exceptions (e.g. calling
`.toLowerCase()` on `undefined`) as `Except Unit`.
-/

/-! ## Tokenization: `natural.WordTokenizer` -/

/-- A character kept by `natural.WordTokenizer`, which splits the input on
runs of non-word characters (`\W`, i.e. not `[A-Za-z0-9_]`). -/
def isWordChar (c : Char) : Bool := c.isAlphanum || c == '_'

/-- Group a character list into maximal runs of word characters; `acc`
holds the (reversed) characters of the token currently being read. -/
def groupTokens (acc : List Char) : List Char → List (List Char)
  | [] => if acc.isEmpty then [] else [acc.reverse]
  | c :: cs =>
    if isWordChar c then groupTokens (c :: acc) cs
    else if acc.isEmpty then groupTokens [] cs
    else acc.reverse :: groupTokens [] cs

/-- `tokenizer.tokenize(s)` of `natural.WordTokenizer`: the maximal runs of
word characters of `s`, empties discarded. -/
def jsTokenize (s : String) : List String :=
  (groupTokens [] s.data).map String.mk

/-! ## JS `toLowerCase` (ASCII fragment) -/

/-- JS `String.prototype.toLowerCase` on one ASCII character: code points
65-90 (`A`-`Z`) are shifted by 32, everything else is unchanged. -/
def lowerChar (c : Char) : Char :=
  if 65 ≤ c.toNat ∧ c.toNat ≤ 90 then Char.ofNat (c.toNat + 32) else c

/-- JS `s.toLowerCase()` (ASCII fragment): `lowerChar` mapped over the
characters. -/
def jsToLowerStr (s : String) : String := String.mk (s.data.map lowerChar)

/-! ## The frequency object and `Object.entries` key order -/

/-- Keep the first occurrence of every element, dropping later duplicates
(the iteration order of a JS `Set`, and the insertion order of the keys of
a JS object). -/
def dedupKeepFirst : List String → List String
  | [] => []
  | x :: xs => x :: (dedupKeepFirst xs).filter (fun y => y != x)

/-- Decimal value of a digit string. -/
def decVal (l : List Char) : Nat :=
  l.foldl (fun a c => a * 10 + (c.toNat - 48)) 0

/-- Whether a string is a canonical array-index property key in the sense
of ECMA-262 (all digits, no leading zero except `"0"` itself, value below
2^32 - 1); such keys are enumerated first, in ascending numeric order, by
`Object.entries`. -/
def isArrayIdxStr (s : String) : Bool :=
  !s.data.isEmpty && s.data.all Char.isDigit &&
    (s == "0" || s.data.head? != some '0') && decide (decVal s.data < 4294967295)

/-- Insert a key into a list of array-index keys, keeping ascending
numeric order. -/
def insertIdxAsc (x : String) : List String → List String
  | [] => [x]
  | y :: ys => if decVal x.data ≤ decVal y.data then x :: y :: ys else y :: insertIdxAsc x ys

/-- Sort array-index keys in ascending numeric order. -/
def sortIdxAsc : List String → List String
  | [] => []
  | x :: xs => insertIdxAsc x (sortIdxAsc xs)

/-- The own enumerable keys created on the count object built over `l` by
the `reduce` of lines 177-180, in insertion order: the first occurrence
of every token except `__proto__`.  Assigning through the `__proto__` key
hits the inherited `Object.prototype` accessor, whose setter ignores a
non-object value, so no own key is ever created and `Object.entries`
never lists such a token.  (An own `constructor` key *is* created by the
assignment, overriding the inherited data property.) -/
def ownCountKeys (l : List String) : List String :=
  (dedupKeepFirst l).filter (fun k => k != "__proto__")

/-- The key enumeration order of `Object.entries` for the count object:
canonical array-index own keys first in ascending numeric order, then the
remaining own keys in insertion (first-occurrence) order. -/
def entriesKeys (l : List String) : List String :=
  sortIdxAsc ((ownCountKeys l).filter isArrayIdxStr) ++
    (ownCountKeys l).filter (fun k => ! isArrayIdxStr k)

/-! ## The keyword-extraction pipeline (`extractKeywords`, lines 155-190) -/

/-- The stopword set of line 174. -/
def stopwords : List String :=
  ["the", "and", "for", "with", "that", "this", "will", "are", "have",
   "not", "all", "can", "but", "more", "some"]

/-- The predefined ATS-relevant vocabulary of lines 159-167. -/
def predefinedKeywords : List String :=
  ["adjunct", "faculty", "professor", "tenure", "curriculum", "syllabus",
   "instructional design", "higher education", "assessment", "teaching",
   "pedagogy", "research", "graduate", "undergraduate", "accreditation",
   "learning outcomes", "student success", "academic advising", "STEM",
   "liberal arts", "education policy", "course development", "PhD", "EdD",
   "leadership", "diversity", "inclusion", "mentorship", "equity",
   "collaboration", "student engagement", "online teaching", "hybrid learning"]

/-- Tokens of the lowercased description that survive the filter of
line 176: length strictly above 2 and not a stopword. -/
def filteredTokens (s : String) : List String :=
  (jsTokenize (jsToLowerStr s)).filter
    (fun w => decide (2 < w.length) && ! stopwords.contains w)

/-- The value stored under an own key `k` of the count object.  For the
key `constructor` the very first read `acc[k]` yields the *inherited*
`Object` constructor function, which is truthy, so the stored value is a
non-numeric string (function source text with digits appended) and stays
a string on every later occurrence; this corrupted count is modelled as
`none`.  Every other key holds its numeric occurrence count. -/
def countVal (l : List String) (k : String) : Option Nat :=
  if k = "constructor" then none else some (l.count k)

/-- `Object.entries(dynamicKeywords)`: every own key of the count object,
in enumeration order, paired with its stored value. -/
def freqEntries (s : String) : List (String × Option Nat) :=
  (entriesKeys (filteredTokens s)).map (fun k => (k, countVal (filteredTokens s) k))

/-- One comparator decision of the stable `sort((a, b) => b[1] - a[1])`:
`goesBefore x y` holds when the stable sort keeps `x` in front of `y`,
i.e. when the comparator result is not positive.  With numeric counts on
both sides that is `y.2 ≤ x.2` (a tie or a strictly larger count for
`x`); when either count is the corrupted non-numeric string, ToNumber
yields NaN and SortCompare maps it to +0, a tie, so `x` (the earlier
element) stays in front.  (When corrupted and clean counts mix, ECMA-262
leaves the order implementation-defined; the insertion sort below fixes
one stable order, and no theorem depends on the position of corrupted
entries.) -/
def goesBefore (x y : String × Option Nat) : Bool :=
  match x.2, y.2 with
  | some a, some b => decide (b ≤ a)
  | _, _ => true

/-- One step of the stable descending insertion sort: `x` is placed in
front of the first element it need not follow, so that among ties the
original (enumeration) order is preserved, which is the ES2019 semantics
of `sort((a, b) => b[1] - a[1])`. -/
def insertCountDesc (x : String × Option Nat) :
    List (String × Option Nat) → List (String × Option Nat)
  | [] => [x]
  | y :: ys => if goesBefore x y then x :: y :: ys else y :: insertCountDesc x ys

/-- Stable sort by descending count (`entries.sort((a, b) => b[1] - a[1])`). -/
def sortCountDesc : List (String × Option Nat) → List (String × Option Nat)
  | [] => []
  | x :: xs => insertCountDesc x (sortCountDesc xs)

/-- Lines 183-186: the five most frequent filtered tokens
(`.sort((a,b) => b[1] - a[1]).slice(0, 5).map(entry => entry[0])`). -/
def topDynamicKeywords (s : String) : List String :=
  ((sortCountDesc (freqEntries s)).take 5).map Prod.fst

/-- `extractKeywords(description)` of lines 155-190.  A missing or empty
description (both falsy in JS) yields `[]`; otherwise the five top dynamic
keywords are concatenated with the tokens found in the predefined
vocabulary, deduplicated keeping first occurrences (`new Set`), and
truncated to ten (`slice(0, 10)`). -/
def extractKeywords : Option String → List String
  | none => []
  | some d =>
    if d = "" then [] else
      (dedupKeepFirst (topDynamicKeywords d ++
        (jsTokenize (jsToLowerStr d)).filter
          (fun w => predefinedKeywords.contains w))).take 10

/-- Modelled from the spec: the dynamic-keyword ranking as §4.3 words it,
"rank descending by frequency; on ties, preserve first-occurrence order
(stable sort)" — every filtered token is ranked by its actual numeric
occurrence count, the tie-break base order is the first-occurrence order
of the filtered tokens, and there is no special treatment of numeric,
`__proto__` or `constructor` keys. -/
def specRankDynamic (s : String) : List String :=
  ((sortCountDesc ((dedupKeepFirst (filteredTokens s)).map
    (fun k => (k, some ((filteredTokens s).count k))))).take 5).map Prod.fst

deriving instance DecidableEq for Except

/-! ## JS coercions used by the route handlers -/

/-- JS string interpolation of a possibly-undefined value:
a template literal renders `undefined` as the string `"undefined"`. -/
def jsStr : Option String → String
  | none => "undefined"
  | some s => s

/-- JS truthiness of a possibly-undefined string: `undefined` and the
empty string are falsy. -/
def jsTruthy : Option String → Bool
  | none => false
  | some s => s != ""

/-- JS `v || d` for a possibly-undefined string `v`: the default `d` is
used when `v` is `undefined` or empty. -/
def jsOr (v : Option String) (d : String) : String :=
  match v with
  | none => d
  | some s => if s = "" then d else s

/-! ## The GET `/scrape-jobs` handler (lines 37-79) -/

/-- The inbound query parameters of `/scrape-jobs`
(`keyword`, `location`, `next_page_token`); each may be absent. -/
structure Query where
  keyword : Option String
  location : Option String
  next_page_token : Option String

/-- Line 39: the cache key is the template literal interpolating
`keyword`, a dash, and `location`.  The raw destructured parameters are
interpolated; `location` is not defaulted here and `next_page_token` is
not part of the key. -/
def cacheKey (q : Query) : String := jsStr q.keyword ++ "-" ++ jsStr q.location

/-- Line 63: `location: location || "United States"` — the location sent
upstream, after defaulting. -/
def locationParam (l : Option String) : String := jsOr l "United States"

/-- Lookup in a JS `Map` modelled as an association list
(`cache.has` / `cache.get`). -/
def mapGet {α : Type} (k : String) : List (String × α) → Option α
  | [] => none
  | (k0, v) :: rest => if k0 = k then some v else mapGet k rest

/-- `cache.set(k, v)`: replace the value of an existing key in place,
otherwise append the new entry. -/
def mapSet {α : Type} (c : List (String × α)) (k : String) (v : α) : List (String × α) :=
  match c with
  | [] => [(k, v)]
  | (k0, v0) :: rest => if k0 = k then (k, v) :: rest else (k0, v0) :: mapSet rest k v

/-- `cache.delete(k)`: drop the entry of key `k`. -/
def mapDelete {α : Type} (c : List (String × α)) (k : String) : List (String × α) :=
  c.filter (fun e => e.1 != k)

/-- The observable outcome of one GET `/scrape-jobs` request: served from
cache (line 44), 400 for a missing keyword (line 49), 500 for a missing
API key (line 54), a fresh upstream result (line 74), or a 500 upstream
failure (line 77). -/
inductive GetOutcome (α : Type) where
  | cachedJobs (v : α)
  | missingKeyword
  | missingApiKey
  | fetched (v : α)
  | upstreamFailure
deriving DecidableEq

/-- One run of the GET `/scrape-jobs` handler (lines 37-79), returning the
outcome and the cache after the request.  The jobs payload is abstracted
to a type `α`; `upstream` is the `jobs_results` the provider would return
(`none` models a failed upstream request).  The handler checks the cache
(line 42) before validating `keyword` (line 47); a successful fetch
stores the payload under the key (line 71). -/
def scrapeJobsGet {α : Type} (hasApiKey : Bool) (upstream : Option α)
    (cache : List (String × α)) (q : Query) : GetOutcome α × List (String × α) :=
  let key := cacheKey q
  match mapGet key cache with
  | some v => (GetOutcome.cachedJobs v, cache)
  | none =>
    if ! jsTruthy q.keyword then (GetOutcome.missingKeyword, cache)
    else if ! hasApiKey then (GetOutcome.missingApiKey, cache)
    else
      match upstream with
      | some v => (GetOutcome.fetched v, mapSet cache key v)
      | none => (GetOutcome.upstreamFailure, cache)

/-! ## The timed cache semantics (lines 70-72)

`cache.set(cacheKey, jobResults); setTimeout(() => cache.delete(cacheKey), 3600000);`
Every `put` stores the value and schedules a deletion of the *key* (not of
the specific entry) `3600000` ms later.  The state of the cache at a time
`now` is obtained by replaying, in chronological order, every store and
every scheduled deletion that is due by `now`. -/

/-- The fixed time-to-live of line 72, in milliseconds. -/
def cacheTTL : Nat := 3600000

/-- One `put`: at time `t` the handler stores `val` under `key`. -/
structure PutOp (α : Type) where
  t : Nat
  key : String
  val : α

/-- An atomic cache mutation: a store or a timer-driven deletion. -/
inductive CacheEvent (α : Type) where
  | set (key : String) (val : α)
  | del (key : String)

/-- Whether an event is the deletion of key `k`. -/
def isDelEvent {α : Type} (k : String) : CacheEvent α → Bool
  | CacheEvent.del k0 => k0 == k
  | _ => false

/-- The two timestamped events produced by one `put`: the store at `t`
and the deletion of the key scheduled for `t + cacheTTL` (line 72). -/
def putEvents {α : Type} (op : PutOp α) : List (Nat × CacheEvent α) :=
  [(op.t, CacheEvent.set op.key op.val), (op.t + cacheTTL, CacheEvent.del op.key)]

/-- Insert an event into a chronologically sorted list, before the first
event that is not earlier (so that simultaneous events keep their
original order). -/
def insertTimeAsc {α : Type} (x : Nat × CacheEvent α) :
    List (Nat × CacheEvent α) → List (Nat × CacheEvent α)
  | [] => [x]
  | y :: ys => if x.1 ≤ y.1 then x :: y :: ys else y :: insertTimeAsc x ys

/-- Stable chronological sort of an event list. -/
def sortTimeAsc {α : Type} : List (Nat × CacheEvent α) → List (Nat × CacheEvent α)
  | [] => []
  | x :: xs => insertTimeAsc x (sortTimeAsc xs)

/-- Apply one event to the cache map. -/
def applyEvent {α : Type} (c : List (String × α)) : CacheEvent α → List (String × α)
  | CacheEvent.set k v => mapSet c k v
  | CacheEvent.del k => mapDelete c k

/-- The cache contents at time `now`, given the trace of `put`s: every
store and every scheduled deletion due by `now`, replayed in
chronological order over the empty map. -/
def cacheAt {α : Type} (ops : List (PutOp α)) (now : Nat) : List (String × α) :=
  ((sortTimeAsc ((ops.map putEvents).flatten)).filter (fun e => e.1 ≤ now)).foldl
    (fun c e => applyEvent c e.2) []

/-- `cache.get(k)` observed at time `now`. -/
def getAt {α : Type} (ops : List (PutOp α)) (k : String) (now : Nat) : Option α :=
  mapGet k (cacheAt ops now)

/-! ## Substring search (JS `String.prototype.includes`) -/

/-- Whether `pat` is an initial segment of the second list. -/
def startsList : List Char → List Char → Bool
  | [], _ => true
  | _ :: _, [] => false
  | p :: ps, c :: cs => p == c && startsList ps cs

/-- Whether `pat` occurs contiguously somewhere in the list. -/
def hasSub (pat : List Char) : List Char → Bool
  | [] => startsList pat []
  | c :: cs => startsList pat (c :: cs) || hasSub pat cs

/-- JS `s.includes(pat)`. -/
def strContains (s pat : String) : Bool := hasSub pat.data s.data

/-! ## `encodeURIComponent` -/

/-- The UTF-8 bytes of a code point. -/
def utf8Bytes (n : Nat) : List Nat :=
  if n < 128 then [n]
  else if n < 2048 then [192 + n / 64, 128 + n % 64]
  else if n < 65536 then [224 + n / 4096, 128 + (n / 64) % 64, 128 + n % 64]
  else [240 + n / 262144, 128 + (n / 4096) % 64, 128 + (n / 64) % 64, 128 + n % 64]

/-- Uppercase hexadecimal digit of a value below 16. -/
def hexDigitChar (n : Nat) : Char :=
  if n < 10 then Char.ofNat (48 + n) else Char.ofNat (55 + n)

/-- Percent-encoding of one byte, e.g. `32 ↦ "%20"`. -/
def percentEncodeByte (b : Nat) : List Char :=
  ['%', hexDigitChar (b / 16), hexDigitChar (b % 16)]

/-- The characters `encodeURIComponent` leaves unescaped:
`A-Z a-z 0-9 - _ . ! ~ * ' ( )` (the apostrophe is `Char.ofNat 39`). -/
def isUnreservedUri (c : Char) : Bool :=
  c.isAlphanum || c == '-' || c == '_' || c == '.' || c == '!' || c == '~' ||
    c == '*' || c == Char.ofNat 39 || c == '(' || c == ')'

/-- JS `encodeURIComponent(s)`: unreserved characters kept, every other
character replaced by the percent-encoding of its UTF-8 bytes. -/
def encodeURIComponent (s : String) : String :=
  String.mk ((s.data.map (fun c =>
    if isUnreservedUri c then [c] else ((utf8Bytes c.toNat).map percentEncodeByte).flatten)).flatten)

/-! ## The job mapper of the `app.all` handler (lines 118-137) -/

/-- One entry of a raw posting's `related_links`; either field may be
absent in the upstream data. -/
structure RelatedLink where
  text : Option String
  link : Option String
deriving DecidableEq

/-- A raw posting from the upstream provider, restricted to the fields
the mapper reads. -/
structure RawPosting where
  title : Option String
  company_name : Option String
  description : Option String
  location : Option String
  salary : Option String
  related_links : Option (List RelatedLink)
deriving DecidableEq

/-- The normalized record built at lines 129-136. -/
structure JobRecord where
  company : Option String
  role : Option String
  location : String
  salary : String
  url : String
  ats_keywords : List String
deriving DecidableEq

/-- Line 125-126: whether a related link's visible text matches
`.toLowerCase().includes("apply") || .toLowerCase().includes("job posting")`. -/
def linkTextMatch (t : String) : Bool :=
  strContains (jsToLowerStr t) "apply" || strContains (jsToLowerStr t) "job posting"

/-- `related_links.find(link => link.text.toLowerCase()...)`: the first
matching link, or an error when a scanned link has no `text` field (the
JS predicate then throws a `TypeError` on `undefined.toLowerCase()`). -/
def findApplyLink : List RelatedLink → Except Unit (Option RelatedLink)
  | [] => Except.ok none
  | l :: ls =>
    match l.text with
    | none => Except.error ()
    | some t => if linkTextMatch t then Except.ok (some l) else findApplyLink ls

/-- The fixed site-filter suffix of the fallback search of line 127. -/
def siteFilterTail : String :=
  " site:higheredjobs.com OR site:linkedin.com OR site:edjoin.org"

/-- The argument of `encodeURIComponent` in the fallback of line 127:
`job.title + " " + job.company_name + " site:higheredjobs.com OR ..."`. -/
def fallbackQuery (job : RawPosting) : String :=
  jsStr job.title ++ " " ++ jsStr job.company_name ++ siteFilterTail

/-- The synthesized Google-search fallback URL of line 127. -/
def fallbackUrl (job : RawPosting) : String :=
  "https://www.google.com/search?q=" ++ encodeURIComponent (fallbackQuery job)

/-- Lines 124-127: the resolved apply link — the `link` of the first
related link whose text matches, if that `link` is truthy, otherwise the
fallback URL; an error when `find` throws on a text-less link. -/
def applyLink (job : RawPosting) : Except Unit String :=
  match job.related_links with
  | none => Except.ok (fallbackUrl job)
  | some links =>
    (findApplyLink links).map (fun found =>
      match found with
      | some l =>
        match l.link with
        | some u => if u = "" then fallbackUrl job else u
        | none => fallbackUrl job
      | none => fallbackUrl job)

/-- Lines 118-136: map one raw posting.  A posting whose description is
absent or empty (falsy) yields `none` (dropped, line 119); otherwise the
normalized record is built, with the defaulted location and salary and
the extracted keywords; an error propagates from `applyLink`. -/
def mapJob (job : RawPosting) : Except Unit (Option JobRecord) :=
  if jsTruthy job.description then
    (applyLink job).map (fun url =>
      some { company := job.company_name
             role := job.title
             location := jsOr job.location "Not specified"
             salary := jsOr job.salary "Not provided"
             url := url
             ats_keywords := extractKeywords job.description })
  else Except.ok none

/-- Whether a related link has a text field and that text does not match
the apply/job-posting test (so `find` skips it without throwing). -/
def linkNoApplyText (l : RelatedLink) : Bool :=
  match l.text with
  | none => false
  | some t => ! linkTextMatch t

/-- Sample posting whose only related link has a non-matching text. -/
def samplePosting : RawPosting :=
  ⟨some "Nurse", some "Acme University", some "teaching nursing", none, none,
    some [RelatedLink.mk (some "Learn more") (some "https://info.example.com")]⟩

/-- Sample posting whose related link text matches the apply test. -/
def applyPosting : RawPosting :=
  ⟨some "Dean", some "Acme University", some "lead the college", none, none,
    some [RelatedLink.mk (some "Apply here") (some "https://apply.example.com")]⟩


/-! ## Helper lemmas about the pipeline stages -/

theorem mem_dedupKeepFirst : ∀ {l : List String} {a : String}, a ∈ dedupKeepFirst l → a ∈ l
  | [], _, h => by simp [dedupKeepFirst] at h
  | x :: xs, a, h => by
    simp only [dedupKeepFirst, List.mem_cons] at h ⊢
    rcases h with h | h
    · exact Or.inl h
    · exact Or.inr (mem_dedupKeepFirst (List.mem_of_mem_filter h))

theorem nodup_dedupKeepFirst : ∀ (l : List String), (dedupKeepFirst l).Nodup
  | [] => by simp [dedupKeepFirst]
  | x :: xs => by
    simp only [dedupKeepFirst, List.nodup_cons]
    refine ⟨fun hx => ?_, List.Nodup.filter _ (nodup_dedupKeepFirst xs)⟩
    have hpx := List.of_mem_filter hx
    simp at hpx

theorem mem_insertIdxAsc : ∀ {l : List String} {x a : String}, a ∈ insertIdxAsc x l → a = x ∨ a ∈ l
  | [], x, a, h => by
    simp only [insertIdxAsc, List.mem_singleton] at h
    exact Or.inl h
  | y :: ys, x, a, h => by
    simp only [insertIdxAsc] at h
    split at h
    · rcases List.mem_cons.mp h with h | h
      · exact Or.inl h
      · exact Or.inr h
    · rcases List.mem_cons.mp h with h | h
      · exact Or.inr (by simp [h])
      · rcases mem_insertIdxAsc h with h2 | h2
        · exact Or.inl h2
        · exact Or.inr (List.mem_cons_of_mem _ h2)

theorem mem_sortIdxAsc : ∀ {l : List String} {a : String}, a ∈ sortIdxAsc l → a ∈ l
  | [], _, h => by simp [sortIdxAsc] at h
  | x :: xs, a, h => by
    simp only [sortIdxAsc] at h
    rcases mem_insertIdxAsc h with h | h
    · simp [h]
    · exact List.mem_cons_of_mem _ (mem_sortIdxAsc h)

theorem mem_insertCountDesc :
    ∀ {l : List (String × Option Nat)} {x a : String × Option Nat},
      a ∈ insertCountDesc x l → a = x ∨ a ∈ l
  | [], x, a, h => by
    simp only [insertCountDesc, List.mem_singleton] at h
    exact Or.inl h
  | y :: ys, x, a, h => by
    simp only [insertCountDesc] at h
    split at h
    · rcases List.mem_cons.mp h with h | h
      · exact Or.inl h
      · exact Or.inr h
    · rcases List.mem_cons.mp h with h | h
      · exact Or.inr (by simp [h])
      · rcases mem_insertCountDesc h with h2 | h2
        · exact Or.inl h2
        · exact Or.inr (List.mem_cons_of_mem _ h2)

theorem mem_sortCountDesc :
    ∀ {l : List (String × Option Nat)} {a : String × Option Nat}, a ∈ sortCountDesc l → a ∈ l
  | [], _, h => by simp [sortCountDesc] at h
  | x :: xs, a, h => by
    simp only [sortCountDesc] at h
    rcases mem_insertCountDesc h with h | h
    · simp [h]
    · exact List.mem_cons_of_mem _ (mem_sortCountDesc h)

theorem mem_ownCountKeys {l : List String} {a : String} (h : a ∈ ownCountKeys l) :
    a ∈ dedupKeepFirst l := by
  simp only [ownCountKeys] at h
  exact List.mem_of_mem_filter h

theorem mem_entriesKeys {l : List String} {a : String} (h : a ∈ entriesKeys l) :
    a ∈ dedupKeepFirst l := by
  simp only [entriesKeys] at h
  rcases List.mem_append.mp h with h | h
  · exact mem_ownCountKeys (List.mem_of_mem_filter (mem_sortIdxAsc h))
  · exact mem_ownCountKeys (List.mem_of_mem_filter h)

theorem mem_topDynamicKeywords {s a : String} (h : a ∈ topDynamicKeywords s) :
    a ∈ filteredTokens s := by
  simp only [topDynamicKeywords, List.mem_map] at h
  obtain ⟨p, hp, rfl⟩ := h
  have h1 : p ∈ sortCountDesc (freqEntries s) := List.mem_of_mem_take hp
  have h2 := mem_sortCountDesc h1
  simp only [freqEntries, List.mem_map] at h2
  obtain ⟨k, hk, rfl⟩ := h2
  exact mem_dedupKeepFirst (mem_entriesKeys hk)

theorem mem_extractKeywords {d a : String} (h : a ∈ extractKeywords (some d)) :
    a ∈ jsTokenize (jsToLowerStr d) := by
  simp only [extractKeywords] at h
  by_cases hd : d = ""
  · rw [if_pos hd] at h
    simp at h
  · rw [if_neg hd] at h
    have h1 := mem_dedupKeepFirst (List.mem_of_mem_take h)
    rcases List.mem_append.mp h1 with h2 | h2
    · exact List.mem_of_mem_filter (mem_topDynamicKeywords h2)
    · exact List.mem_of_mem_filter h2

theorem groupTokens_chars : ∀ (l acc t : List Char),
    t ∈ groupTokens acc l → ∀ c ∈ t, c ∈ acc ∨ c ∈ l
  | [], acc, t, ht, c, hc => by
    simp only [groupTokens] at ht
    by_cases hae : acc.isEmpty
    · rw [if_pos hae] at ht
      simp at ht
    · rw [if_neg hae] at ht
      simp only [List.mem_singleton] at ht
      subst ht
      exact Or.inl (List.mem_reverse.mp hc)
  | c0 :: cs, acc, t, ht, c, hc => by
    simp only [groupTokens] at ht
    by_cases hw : isWordChar c0
    · rw [if_pos hw] at ht
      rcases groupTokens_chars cs (c0 :: acc) t ht c hc with h | h
      · rcases List.mem_cons.mp h with h | h
        · exact Or.inr (by simp [h])
        · exact Or.inl h
      · exact Or.inr (List.mem_cons_of_mem _ h)
    · rw [if_neg hw] at ht
      by_cases hae : acc.isEmpty
      · rw [if_pos hae] at ht
        rcases groupTokens_chars cs [] t ht c hc with h | h
        · simp at h
        · exact Or.inr (List.mem_cons_of_mem _ h)
      · rw [if_neg hae] at ht
        rcases List.mem_cons.mp ht with h | h
        · subst h
          exact Or.inl (List.mem_reverse.mp hc)
        · rcases groupTokens_chars cs [] t h c hc with h2 | h2
          · simp at h2
          · exact Or.inr (List.mem_cons_of_mem _ h2)

theorem groupTokens_wordChar : ∀ (l acc : List Char),
    (∀ c ∈ acc, isWordChar c = true) →
    ∀ t ∈ groupTokens acc l, ∀ c ∈ t, isWordChar c = true
  | [], acc, hacc, t, ht, c, hc => by
    simp only [groupTokens] at ht
    by_cases hae : acc.isEmpty
    · rw [if_pos hae] at ht
      simp at ht
    · rw [if_neg hae] at ht
      simp only [List.mem_singleton] at ht
      subst ht
      exact hacc c (List.mem_reverse.mp hc)
  | c0 :: cs, acc, hacc, t, ht, c, hc => by
    simp only [groupTokens] at ht
    by_cases hw : isWordChar c0
    · rw [if_pos hw] at ht
      refine groupTokens_wordChar cs (c0 :: acc) ?_ t ht c hc
      intro x hx
      rcases List.mem_cons.mp hx with h | h
      · subst h
        exact hw
      · exact hacc x h
    · rw [if_neg hw] at ht
      by_cases hae : acc.isEmpty
      · rw [if_pos hae] at ht
        exact groupTokens_wordChar cs [] (by simp) t ht c hc
      · rw [if_neg hae] at ht
        rcases List.mem_cons.mp ht with h | h
        · subst h
          exact hacc c (List.mem_reverse.mp hc)
        · exact groupTokens_wordChar cs [] (by simp) t h c hc

theorem jsTokenize_chars {s t : String} (ht : t ∈ jsTokenize s) :
    ∀ c ∈ t.data, isWordChar c = true ∧ c ∈ s.data := by
  simp only [jsTokenize, List.mem_map] at ht
  obtain ⟨tl, htl, rfl⟩ := ht
  intro c hc
  have hc2 : c ∈ tl := hc
  refine ⟨groupTokens_wordChar s.data [] (by simp) tl htl c hc2, ?_⟩
  rcases groupTokens_chars s.data [] tl htl c hc2 with h | h
  · simp at h
  · exact h

/-! ## C4 -/

/-- C4: for every description, the list returned by `extractKeywords` has
length at most 10 and contains no two equal entries. -/
theorem c4_keyword_card_nodup (d : Option String) :
    (extractKeywords d).length ≤ 10 ∧ (extractKeywords d).Nodup := by
  cases d with
  | none => simp [extractKeywords]
  | some s =>
    by_cases hs : s = ""
    · simp [extractKeywords, hs]
    · have he : extractKeywords (some s) =
          (dedupKeepFirst (topDynamicKeywords s ++
            (jsTokenize (jsToLowerStr s)).filter
              (fun w => predefinedKeywords.contains w))).take 10 := by
        simp [extractKeywords, hs]
      rw [he]
      exact ⟨List.length_take_le _ _,
        List.Nodup.sublist (List.take_sublist _ _) (nodup_dedupKeepFirst _)⟩

/-! ## C7 -/

/-- C7: for every description, no multi-word (space-containing) entry of
the curated vocabulary ever appears in the output of `extractKeywords`:
tokenization produces only single-word tokens, which contain no space. -/
theorem c7_multiword_never_in_output (d : Option String) (e : String)
    ( _hp : e ∈ predefinedKeywords) (hsp : ' ' ∈ e.data) :
    e ∉ extractKeywords d := by
  intro hmem
  cases d with
  | none => simp [extractKeywords] at hmem
  | some s =>
    have hw := (jsTokenize_chars (mem_extractKeywords hmem) ' ' hsp).1
    exact absurd hw (by decide)

/-- Witness for C7: `"instructional design"` is a multi-word curated entry
and is absent from the keywords of a description that spells it out. -/
theorem c7_multiword_never_in_output_witness :
    "instructional design" ∉ extractKeywords (some "expert in instructional design") :=
  c7_multiword_never_in_output _ _ (by decide) (by decide)

/-! ## C9 -/

theorem char_toNat_ofNat_valid {n : Nat} (h : n.isValidChar) : (Char.ofNat n).toNat = n := by
  unfold Char.ofNat
  rw [dif_pos h]
  rfl

theorem lowerChar_ne_upper {c u : Char} (h1 : 65 ≤ u.toNat) (h2 : u.toNat ≤ 90) :
    lowerChar c ≠ u := by
  intro he
  unfold lowerChar at he
  by_cases hc : 65 ≤ c.toNat ∧ c.toNat ≤ 90
  · rw [if_pos hc] at he
    have hr : (Char.ofNat (c.toNat + 32)).toNat = c.toNat + 32 :=
      char_toNat_ofNat_valid (Or.inl (by omega))
    have hu := congrArg Char.toNat he
    rw [hr] at hu
    omega
  · rw [if_neg hc] at he
    subst he
    exact hc ⟨h1, h2⟩

theorem upper_char_notin_extract {e : String} {u : Char}
    (h1 : 65 ≤ u.toNat) (h2 : u.toNat ≤ 90) (hu : u ∈ e.data) (d : Option String) :
    e ∉ extractKeywords d := by
  intro hmem
  cases d with
  | none => simp [extractKeywords] at hmem
  | some s =>
    have hin := (jsTokenize_chars (mem_extractKeywords hmem) u hu).2
    have hdata : (jsToLowerStr s).data = s.data.map lowerChar := rfl
    rw [hdata] at hin
    obtain ⟨c0, _, hc0⟩ := List.mem_map.mp hin
    exact lowerChar_ne_upper h1 h2 hc0

/-- C9: the curated entries containing an uppercase letter are exactly
`STEM`, `PhD` and `EdD`, and none of them can ever appear in the output of
`extractKeywords`, because the description is lowercased before the
case-sensitive membership test. -/
theorem c9_uppercase_entries_unreachable :
    predefinedKeywords.filter (fun e => e.data.any Char.isUpper) = ["STEM", "PhD", "EdD"] ∧
    ∀ d : Option String,
      "STEM" ∉ extractKeywords d ∧ "PhD" ∉ extractKeywords d ∧ "EdD" ∉ extractKeywords d := by
  refine ⟨by decide, fun d => ⟨?_, ?_, ?_⟩⟩
  · exact upper_char_notin_extract (u := 'S') (by decide) (by decide) (by decide) d
  · exact upper_char_notin_extract (u := 'P') (by decide) (by decide) (by decide) d
  · exact upper_char_notin_extract (u := 'E') (by decide) (by decide) (by decide) d

/-- Witness for C9: `"STEM"` is absent from the keywords of a description
that contains it verbatim. -/
theorem c9_uppercase_entries_unreachable_witness :
    "STEM" ∉ extractKeywords (some "STEM and stem research") :=
  (c9_uppercase_entries_unreachable.2 (some "STEM and stem research")).1

/-! ## C5 -/

theorem cacheAt_single {α : Type} (T : Nat) (k : String) (v : α) (now : Nat) :
    cacheAt [⟨T, k, v⟩] now =
      if T + cacheTTL ≤ now then [] else if T ≤ now then [(k, v)] else [] := by
  have hTle : T ≤ T + cacheTTL := Nat.le_add_right _ _
  by_cases h2 : T + cacheTTL ≤ now
  · have h1 : T ≤ now := le_trans hTle h2
    simp [cacheAt, putEvents, sortTimeAsc, insertTimeAsc, hTle, h1, h2,
      applyEvent, mapSet, mapDelete]
  · by_cases h1 : T ≤ now
    · simp [cacheAt, putEvents, sortTimeAsc, insertTimeAsc, hTle, h1, h2,
        applyEvent, mapSet, mapDelete]
    · simp [cacheAt, putEvents, sortTimeAsc, insertTimeAsc, hTle, h1, h2,
        applyEvent, mapSet, mapDelete]

/-- C5: an entry put at time `T` (with the fixed ttl of line 72) is
returned by `get` at any time in `[T, T + ttl)`, is absent at any time at
or after `T + ttl`, and the trace schedules exactly one deletion of the
key. -/
theorem c5_entry_expiry {α : Type} (T : Nat) (k : String) (v : α) (t : Nat) :
    (T ≤ t → t < T + cacheTTL → getAt [⟨T, k, v⟩] k t = some v) ∧
    (T + cacheTTL ≤ t → getAt [⟨T, k, v⟩] k t = none) ∧
    ((putEvents (⟨T, k, v⟩ : PutOp α)).filter (fun e => isDelEvent k e.2)).length = 1 := by
  refine ⟨fun h1 h2 => ?_, fun h2 => ?_, ?_⟩
  · unfold getAt
    rw [cacheAt_single, if_neg (by omega), if_pos h1]
    simp [mapGet]
  · unfold getAt
    rw [cacheAt_single, if_pos h2]
    simp [mapGet]
  · simp [putEvents, isDelEvent]

/-- Witness for C5 at `T = 0`, ttl boundary `3600000`. -/
theorem c5_entry_expiry_witness :
    getAt [⟨0, "jobs", (7 : Nat)⟩] "jobs" 3599999 = some 7 ∧
    getAt [⟨0, "jobs", (7 : Nat)⟩] "jobs" 3600000 = none :=
  ⟨(c5_entry_expiry 0 "jobs" 7 3599999).1 (by decide) (by decide),
   (c5_entry_expiry 0 "jobs" 7 3600000).2.1 (by decide)⟩

/-! ## C2 -/

/-- C2 (failing input): two puts on the same key, the second before the
first's deadline.  The deletion scheduled by the first put is keyed by the
map key alone (line 72), so at `3600001` — after the first deadline
`0 + ttl` but before the second deadline `5 + ttl` — the second entry has
already been removed and `get` misses, although the value was still
served at `3599999`. -/
theorem c2_stale_timer_deletes_newer_entry :
    getAt [⟨0, "jobs", (1 : Nat)⟩, ⟨5, "jobs", 2⟩] "jobs" 3600001 = none ∧
    0 + cacheTTL < 3600001 ∧ 3600001 < 5 + cacheTTL ∧
    getAt [⟨0, "jobs", (1 : Nat)⟩, ⟨5, "jobs", 2⟩] "jobs" 3599999 = some 2 := by decide

/-! ## C1 -/

/-- C1 (counterexample): the GET handler consults the cache (line 42)
before validating `keyword` (line 47).  A first, valid request with the
literal keyword and location `"undefined"` stores its result under the key
`"undefined-undefined"`; a second request with `keyword` and `location`
absent derives the same key and is served from the cache instead of
failing with the 400 validation error. -/
theorem c1_cached_served_without_validation :
    (scrapeJobsGet true (some 42) ([] : List (String × Nat))
        ⟨some "undefined", some "undefined", none⟩).1 = GetOutcome.fetched 42 ∧
    (scrapeJobsGet true (some 42) ([] : List (String × Nat))
        ⟨some "undefined", some "undefined", none⟩).2 = [("undefined-undefined", 42)] ∧
    jsTruthy (Query.mk none none none).keyword = false ∧
    (scrapeJobsGet true (some 99) [("undefined-undefined", 42)]
        ⟨none, none, none⟩).1 = GetOutcome.cachedJobs 42 := by decide

/-- C1 (amended): when the derived key is *not* in the cache, a request
with a falsy (absent or empty) keyword fails with the 400 validation
outcome before the upstream call, for every API-key state and every
upstream behaviour, and the cache is left unchanged. -/
theorem c1_validation_when_cache_miss {α : Type} (hasApiKey : Bool) (upstream : Option α)
    (cache : List (String × α)) (q : Query)
    (hmiss : mapGet (cacheKey q) cache = none) (hkw : jsTruthy q.keyword = false) :
    scrapeJobsGet hasApiKey upstream cache q = (GetOutcome.missingKeyword, cache) := by
  simp only [scrapeJobsGet]
  rw [hmiss, hkw]
  simp

/-- Witness for C1 (amended) on an empty cache with an absent keyword. -/
theorem c1_validation_when_cache_miss_witness :
    scrapeJobsGet true (some (5 : Nat)) [] ⟨none, some "Texas", none⟩ =
      (GetOutcome.missingKeyword, []) :=
  c1_validation_when_cache_miss true (some 5) [] ⟨none, some "Texas", none⟩ (by decide) (by decide)

/-! ## C3 -/

/-- C3 (counterexample): an absent location and the explicit location
`"United States"` agree after the defaulting applied to the upstream
request (line 63), yet produce different cache keys (line 39), because the
key interpolates the raw, un-defaulted `location`. -/
theorem c3_location_defaulting_not_in_key :
    locationParam none = locationParam (some "United States") ∧
    cacheKey ⟨some "nurse", none, none⟩ = "nurse-undefined" ∧
    cacheKey ⟨some "nurse", some "United States", none⟩ = "nurse-United States" ∧
    cacheKey ⟨some "nurse", none, none⟩ ≠ cacheKey ⟨some "nurse", some "United States", none⟩ := by
  decide

/-- C3 (amended): two queries whose raw `keyword` and raw `location`
interpolate to the same strings derive the same cache key, regardless of
their pagination tokens (which the key never reads). -/
theorem c3_raw_params_determine_key (q1 q2 : Query)
    (hk : jsStr q1.keyword = jsStr q2.keyword) (hl : jsStr q1.location = jsStr q2.location) :
    cacheKey q1 = cacheKey q2 := by
  unfold cacheKey
  rw [hk, hl]

/-- Witness for C3 (amended): identical raw parameters with different
pagination tokens collide on the same key. -/
theorem c3_raw_params_determine_key_witness :
    cacheKey ⟨some "nurse", some "Texas", none⟩ =
      cacheKey ⟨some "nurse", some "Texas", some "page2token"⟩ :=
  c3_raw_params_determine_key _ _ rfl rfl

/-! ## C6 -/

/-- C6 (counterexample): three inputs on which the code's dynamic ranking
differs from the claimed frequency-descending, first-occurrence-on-ties
ranking of the filtered tokens.  For `"abc 2023 abc 2023"` both tokens
occur twice, yet the code ranks `2023` first, because `Object.entries`
lists the array-index key before insertion order.  For
`"__proto__ __proto__ fox"` the `__proto__` assignments never create an
own key, so the code's output is `["fox"]` although `__proto__` is the
most frequent token.  For `"constructor constructor cat cat cat"` the
`constructor` count is corrupted to a non-numeric string, every
comparison is a NaN tie, and the stable sort keeps insertion order, so
the code ranks `constructor` before the thrice-occurring `cat`. -/
theorem c6_entries_order_counterexample :
    (topDynamicKeywords "abc 2023 abc 2023" = ["2023", "abc"] ∧
      specRankDynamic "abc 2023 abc 2023" = ["abc", "2023"] ∧
      extractKeywords (some "abc 2023 abc 2023") = ["2023", "abc"]) ∧
    (extractKeywords (some "__proto__ __proto__ fox") = ["fox"] ∧
      specRankDynamic "__proto__ __proto__ fox" = ["__proto__", "fox"]) ∧
    (extractKeywords (some "constructor constructor cat cat cat") = ["constructor", "cat"] ∧
      specRankDynamic "constructor constructor cat cat cat" = ["cat", "constructor"]) := by
  decide

/-- C6 (amended): when no filtered token is a canonical array-index
string, `__proto__` or `constructor`, the code's dynamic ranking
coincides with the spec's frequency-descending, first-occurrence-on-ties
ranking; in particular for `"cat dog cat bird dog cat"` the keywords rank
`cat`, `dog`, `bird`. -/
theorem c6_first_occurrence_tiebreak_plain_tokens :
    (∀ s : String,
      (∀ w ∈ filteredTokens s,
        isArrayIdxStr w = false ∧ w ≠ "__proto__" ∧ w ≠ "constructor") →
      topDynamicKeywords s = specRankDynamic s) ∧
    extractKeywords (some "cat dog cat bird dog cat") = ["cat", "dog", "bird"] := by
  constructor
  · intro s h
    have hown : ownCountKeys (filteredTokens s) = dedupKeepFirst (filteredTokens s) := by
      simp only [ownCountKeys]
      rw [List.filter_eq_self]
      intro a ha
      simp [(h a (mem_dedupKeepFirst ha)).2.1]
    have h1 : (dedupKeepFirst (filteredTokens s)).filter isArrayIdxStr = [] := by
      rw [List.filter_eq_nil_iff]
      intro a ha
      simp [(h a (mem_dedupKeepFirst ha)).1]
    have h2 : (dedupKeepFirst (filteredTokens s)).filter (fun k => ! isArrayIdxStr k) =
        dedupKeepFirst (filteredTokens s) := by
      rw [List.filter_eq_self]
      intro a ha
      simp [(h a (mem_dedupKeepFirst ha)).1]
    have hkeys : entriesKeys (filteredTokens s) = dedupKeepFirst (filteredTokens s) := by
      simp only [entriesKeys, hown, h1, h2, sortIdxAsc, List.nil_append]
    have hvals : (dedupKeepFirst (filteredTokens s)).map
          (fun k => (k, countVal (filteredTokens s) k)) =
        (dedupKeepFirst (filteredTokens s)).map
          (fun k => (k, some ((filteredTokens s).count k))) := by
      apply List.map_congr_left
      intro a ha
      simp [countVal, (h a (mem_dedupKeepFirst ha)).2.2]
    simp only [topDynamicKeywords, specRankDynamic, freqEntries, hkeys, hvals]
  · decide

/-- Witness for C6 (amended) at the spec's own example. -/
theorem c6_first_occurrence_tiebreak_plain_tokens_witness :
    topDynamicKeywords "cat dog cat bird dog cat" =
      specRankDynamic "cat dog cat bird dog cat" :=
  c6_first_occurrence_tiebreak_plain_tokens.1 _ (by decide)

/-! ## String-containment lemmas for C8 -/

theorem strAppend_data (s t : String) : (s ++ t).data = s.data ++ t.data := rfl

theorem encode_data_append (s t : String) :
    (encodeURIComponent (s ++ t)).data =
      (encodeURIComponent s).data ++ (encodeURIComponent t).data := by
  simp [encodeURIComponent, strAppend_data]

theorem startsList_self : ∀ (pat b : List Char), startsList pat (pat ++ b) = true
  | [], _ => rfl
  | p :: ps, b => by simp [startsList, startsList_self ps b]

theorem hasSub_of_startsList {pat l : List Char} (h : startsList pat l = true) :
    hasSub pat l = true := by
  cases l with
  | nil => simpa [hasSub] using h
  | cons c cs => simp [hasSub, h]

theorem hasSub_append_left : ∀ (a : List Char) {pat l : List Char},
    hasSub pat l = true → hasSub pat (a ++ l) = true
  | [], _, _, h => h
  | c :: cs, pat, l, h => by
    have hstep : hasSub pat ((c :: cs) ++ l) =
        (startsList pat ((c :: cs) ++ l) || hasSub pat (cs ++ l)) := rfl
    rw [hstep, hasSub_append_left cs h]
    simp

theorem hasSub_of_split {pat l a b : List Char} (h : l = a ++ (pat ++ b)) :
    hasSub pat l = true := by
  subst h
  exact hasSub_append_left a (hasSub_of_startsList (startsList_self pat b))

/-! ## C8 -/

theorem findApplyLink_none : ∀ (links : List RelatedLink),
    links.all linkNoApplyText = true → findApplyLink links = Except.ok none
  | [], _ => rfl
  | l :: ls, h => by
    simp only [List.all_cons, Bool.and_eq_true] at h
    obtain ⟨h1, h2⟩ := h
    cases hlt : l.text with
    | none => simp [linkNoApplyText, hlt] at h1
    | some t =>
      have hm : linkTextMatch t = false := by
        simpa [linkNoApplyText, hlt] using h1
      simp [findApplyLink, hlt, hm, findApplyLink_none ls h2]

theorem applyLink_fallback (job : RawPosting)
    (hl : (job.related_links.getD []).all linkNoApplyText = true) :
    applyLink job = Except.ok (fallbackUrl job) := by
  cases hrel : job.related_links with
  | none => simp [applyLink, hrel]
  | some links =>
    rw [hrel] at hl
    simp only [Option.getD_some] at hl
    simp [applyLink, hrel, findApplyLink_none links hl, Except.map]

theorem fallbackUrl_data (job : RawPosting) :
    (fallbackUrl job).data =
      "https://www.google.com/search?q=".data ++
        ((encodeURIComponent (jsStr job.title)).data ++
          ((encodeURIComponent " ").data ++
            ((encodeURIComponent (jsStr job.company_name)).data ++
              (encodeURIComponent siteFilterTail).data))) := by
  simp only [fallbackUrl, fallbackQuery, strAppend_data, encode_data_append, List.append_assoc]

/-- C8: a posting with a (truthy) description none of whose related links
matches the apply/job-posting test is mapped to a record whose URL is the
synthesized fallback: non-empty, containing the URL-encoded role and
company name and all three site filters. -/
theorem c8_fallback_apply_url (job : RawPosting)
    (hd : jsTruthy job.description = true)
    (hl : (job.related_links.getD []).all linkNoApplyText = true) :
    ∃ r : JobRecord, mapJob job = Except.ok (some r) ∧ r.url = fallbackUrl job ∧
      r.url ≠ "" ∧
      strContains r.url (encodeURIComponent (jsStr job.title)) = true ∧
      strContains r.url (encodeURIComponent (jsStr job.company_name)) = true ∧
      strContains r.url "higheredjobs.com" = true ∧
      strContains r.url "linkedin.com" = true ∧
      strContains r.url "edjoin.org" = true := by
  have hmap : mapJob job = Except.ok (some
      { company := job.company_name, role := job.title,
        location := jsOr job.location "Not specified",
        salary := jsOr job.salary "Not provided",
        url := fallbackUrl job,
        ats_keywords := extractKeywords job.description }) := by
    simp [mapJob, hd, applyLink_fallback job hl, Except.map]
  have htail : (fallbackUrl job).data =
      ("https://www.google.com/search?q=".data ++
        ((encodeURIComponent (jsStr job.title)).data ++
          ((encodeURIComponent " ").data ++
            (encodeURIComponent (jsStr job.company_name)).data))) ++
        (encodeURIComponent siteFilterTail).data := by
    rw [fallbackUrl_data]
    simp [List.append_assoc]
  refine ⟨_, hmap, rfl, ?_, ?_, ?_, ?_, ?_, ?_⟩
  · intro h0
    have h1 := congrArg String.data h0
    rw [fallbackUrl_data] at h1
    simp at h1
  · simp only [strContains]
    exact hasSub_of_split (fallbackUrl_data job)
  · simp only [strContains]
    refine hasSub_of_split (a := "https://www.google.com/search?q=".data ++
      ((encodeURIComponent (jsStr job.title)).data ++ (encodeURIComponent " ").data))
      (b := (encodeURIComponent siteFilterTail).data) ?_
    rw [fallbackUrl_data]
    simp [List.append_assoc]
  · simp only [strContains]
    rw [htail]
    exact hasSub_append_left _ (by decide)
  · simp only [strContains]
    rw [htail]
    exact hasSub_append_left _ (by decide)
  · simp only [strContains]
    rw [htail]
    exact hasSub_append_left _ (by decide)

/-- Witness for C8 at `samplePosting`. -/
theorem c8_fallback_apply_url_witness :
    ∃ r : JobRecord, mapJob samplePosting = Except.ok (some r) ∧
      r.url = fallbackUrl samplePosting ∧
      r.url ≠ "" ∧
      strContains r.url (encodeURIComponent (jsStr samplePosting.title)) = true ∧
      strContains r.url (encodeURIComponent (jsStr samplePosting.company_name)) = true ∧
      strContains r.url "higheredjobs.com" = true ∧
      strContains r.url "linkedin.com" = true ∧
      strContains r.url "edjoin.org" = true :=
  c8_fallback_apply_url samplePosting (by decide) (by decide)

/-! ## C10 -/

theorem findApplyLink_total : ∀ (links : List RelatedLink),
    links.all (fun l => l.text.isSome) = true → ∃ o, findApplyLink links = Except.ok o
  | [], _ => ⟨none, rfl⟩
  | l :: ls, h => by
    simp only [List.all_cons, Bool.and_eq_true] at h
    obtain ⟨h1, h2⟩ := h
    cases hlt : l.text with
    | none =>
      rw [hlt] at h1
      simp at h1
    | some t =>
      by_cases hm : linkTextMatch t
      · exact ⟨some l, by simp [findApplyLink, hlt, hm]⟩
      · obtain ⟨o, ho⟩ := findApplyLink_total ls h2
        exact ⟨o, by simp [findApplyLink, hlt, hm, ho]⟩

/-- C10: apply-link resolution is total exactly under the precondition
that every related link carries a text: a posting (with a truthy
description) all of whose related links have a `text` is mapped without
error, while a posting containing a text-less related link makes the
mapper throw (modelled as `Except.error`), instead of producing a record
or dropping the posting. -/
theorem c10_applylink_totality :
    (∀ job : RawPosting, jsTruthy job.description = true →
        (job.related_links.getD []).all (fun l => l.text.isSome) = true →
        ∃ r : JobRecord, mapJob job = Except.ok (some r)) ∧
    mapJob ⟨some "Dean", some "Acme University", some "lead the college",
        none, none, some [RelatedLink.mk none (some "https://apply.example.com")]⟩ =
      Except.error () := by
  constructor
  · intro job hd hall
    have happ : ∃ u, applyLink job = Except.ok u := by
      cases hrel : job.related_links with
      | none => exact ⟨fallbackUrl job, by simp [applyLink, hrel]⟩
      | some links =>
        rw [hrel] at hall
        simp only [Option.getD_some] at hall
        obtain ⟨o, ho⟩ := findApplyLink_total links hall
        cases o with
        | none => exact ⟨fallbackUrl job, by simp [applyLink, hrel, ho, Except.map]⟩
        | some l =>
          cases hlk : l.link with
          | none => exact ⟨fallbackUrl job, by simp [applyLink, hrel, ho, Except.map, hlk]⟩
          | some u =>
            by_cases hu : u = ""
            · exact ⟨fallbackUrl job, by simp [applyLink, hrel, ho, Except.map, hlk, hu]⟩
            · exact ⟨u, by simp [applyLink, hrel, ho, Except.map, hlk, hu]⟩
    obtain ⟨u, hu⟩ := happ
    exact ⟨{ company := job.company_name, role := job.title,
             location := jsOr job.location "Not specified",
             salary := jsOr job.salary "Not provided",
             url := u, ats_keywords := extractKeywords job.description },
      by simp [mapJob, hd, hu, Except.map]⟩
  · decide

/-- Witness for C10 at `applyPosting`, whose link texts are all present. -/
theorem c10_applylink_totality_witness :
    ∃ r : JobRecord, mapJob applyPosting = Except.ok (some r) :=
  c10_applylink_totality.1 applyPosting (by decide) (by decide)
